import Mathlib

/-! Greedy snake client (`src/client/client_luis.cpp`)

A shallow embedding of the snake logic of `client_luis.cpp`: the grid
geometry, the body of the snake, the greedy move selector, the state updater
and the driver loop, followed by the properties proved about them.

The C++ type `int` is embedded as `Int` together with the 32-bit
two's-complement wrap `wrap32`; every arithmetic operation of the source is
passed through it.  A `Position` whose coordinates are representable is
`Position.valid`.  `std::vector<Position>` is a `List Position` with the head
of the snake first.  Indexing an empty vector is a failure, so `getHead` and
`chooseMove` return an `Option`.
-/

set_option autoImplicit false

/-! ## Machine integers -/

/-- Value of the C++ constant `INT_MAX` for a 32-bit `int`. -/
def INT_MAX : Int := 2147483647

/-- Value of the C++ constant `INT_MIN` for a 32-bit `int`. -/
def INT_MIN : Int := -2147483648

/-- Two's-complement reduction of an integer to the range of a 32-bit `int`. -/
def wrap32 (n : Int) : Int := (n + 2147483648) % 4294967296 - 2147483648

/-- Machine addition of two `int`s. -/
def add32 (a b : Int) : Int := wrap32 (a + b)

/-- Machine subtraction of two `int`s. -/
def sub32 (a b : Int) : Int := wrap32 (a - b)

/-- Machine version of `abs` from `<cstdlib>`. -/
def abs32 (a : Int) : Int := wrap32 (if a < 0 then -a else a)

/-- An integer that is representable as a 32-bit `int`. -/
def isInt32 (n : Int) : Prop := INT_MIN ≤ n ∧ n ≤ INT_MAX

instance (n : Int) : Decidable (isInt32 n) := by
  unfold isInt32; infer_instance

/-! ## Data model -/

/-- Width of the game grid (`const int WIDTH = 20`). -/
def WIDTH : Int := 20

/-- Height of the game grid (`const int HEIGHT = 20`). -/
def HEIGHT : Int := 20

/-- A position on the grid (`struct Position`). -/
structure Position where
  x : Int
  y : Int
  deriving DecidableEq, Repr

/-- Both coordinates of the position are representable `int`s. -/
def Position.valid (p : Position) : Prop := isInt32 p.x ∧ isInt32 p.y

instance (p : Position) : Decidable p.valid := by
  unfold Position.valid; infer_instance

/-- Comparison of two positions (`Position::operator==`). -/
def Position.opEq (a other : Position) : Bool :=
  a.x == other.x && a.y == other.y

/-- The snake: its body, head at the front (`struct Snake`). -/
structure Snake where
  body : List Position
  deriving DecidableEq, Repr

/-- The snake logic class (`class SnakeLogic`), whose only member is `mySnake`. -/
structure SnakeLogic where
  mySnake : Snake
  deriving DecidableEq, Repr

namespace SnakeLogic

/-- The constructor `SnakeLogic::SnakeLogic(Position start)`.  The operator `%` of C++
truncates towards zero, which is `Int.tmod`. -/
def init (start : Position) : SnakeLogic :=
  if Int.tmod start.x 2 = 0 then
    ⟨⟨[⟨start.x, start.y⟩, ⟨sub32 start.x 1, start.y⟩]⟩⟩
  else
    ⟨⟨[start]⟩⟩

/-- Whether a position is inside the grid boundaries (`isInsideGrid`). -/
def isInsideGrid (pos : Position) : Bool :=
  decide (pos.x ≥ 0) && decide (pos.x < WIDTH) && decide (pos.y ≥ 0) && decide (pos.y < HEIGHT)

/-- The loop of `isCellFree` over the remaining segments. -/
def isCellFreeLoop (pos : Position) : List Position → Bool
  | [] => true
  | segment :: rest => if segment.opEq pos then false else isCellFreeLoop pos rest

/-- Whether a position is free, i.e. not occupied by the snake itself (`isCellFree`). -/
def isCellFree (s : SnakeLogic) (pos : Position) : Bool :=
  isCellFreeLoop pos s.mySnake.body

/-- The movement vector for a direction key (`getDirectionVector`). -/
def getDirectionVector (dir : Char) : Position :=
  if dir = 'w' then ⟨0, -1⟩
  else if dir = 'a' then ⟨-1, 0⟩
  else if dir = 's' then ⟨0, 1⟩
  else if dir = 'd' then ⟨1, 0⟩
  else ⟨0, 0⟩

/-- The vector `moves` built in `chooseMove`: up, left, down, right of the head. -/
def moves (myHead : Position) : List Position :=
  [⟨myHead.x, sub32 myHead.y 1⟩,
   ⟨sub32 myHead.x 1, myHead.y⟩,
   ⟨myHead.x, add32 myHead.y 1⟩,
   ⟨add32 myHead.x 1, myHead.y⟩]

/-- The expression `abs(move.x - target.x) + abs(move.y - target.y)` of `chooseMove`. -/
def distance (move target : Position) : Int :=
  add32 (abs32 (sub32 move.x target.x)) (abs32 (sub32 move.y target.y))

/-- One iteration of the loop of `chooseMove`; the state is `(bestMove, bestDistance)`. -/
def chooseStep (s : SnakeLogic) (target : Position) (best : Position × Int)
    (move : Position) : Position × Int :=
  if isInsideGrid move && s.isCellFree move then
    if distance move target < best.2 then (move, distance move target) else best
  else best

/-- The next move of the snake (`chooseMove`); `none` when `body[0]` does not exist. -/
def chooseMove (s : SnakeLogic) (target : Position) : Option Position :=
  match s.mySnake.body with
  | [] => none
  | myHead :: _ => some ((moves myHead).foldl (chooseStep s target) (myHead, INT_MAX)).1

/-- The snake after a move (`update`): insert the new head at the front, pop the back. -/
def update (s : SnakeLogic) (newHead : Position) : SnakeLogic :=
  ⟨⟨(newHead :: s.mySnake.body).dropLast⟩⟩

/-- The current head of the snake (`getHead`); `none` when `body[0]` does not exist. -/
def getHead (s : SnakeLogic) : Option Position :=
  s.mySnake.body.head?

end SnakeLogic

/-- One iteration of the body of `gameLoop`, without its drawing and sleeping:
`chooseMove` followed by `update`. -/
def gameLoopStep (snake : SnakeLogic) (target : Position) : Option SnakeLogic :=
  (snake.chooseMove target).map snake.update

/-- The first `ticks` iterations of the endless loop of `gameLoop`. -/
def gameLoop : Nat → SnakeLogic → Position → Option SnakeLogic
  | 0, snake, _ => some snake
  | ticks + 1, snake, target =>
    (gameLoopStep snake target).bind (fun next => gameLoop ticks next target)

/-- A sequence of `update` calls, applied in order. -/
def updateAll (s : SnakeLogic) (heads : List Position) : SnakeLogic :=
  heads.foldl SnakeLogic.update s

/-! ## Renderer and entry point -/

/-- The assignment `grid[y][x] = c` on the character buffer; `none` when an index lies
outside the buffer. -/
def setCell (grid : List (List Char)) (x y : Int) (c : Char) : Option (List (List Char)) :=
  if 0 ≤ y ∧ y < grid.length then
    match grid.get? y.toNat with
    | none => none
    | some row =>
      if 0 ≤ x ∧ x < row.length then some (grid.set y.toNat (row.set x.toNat c)) else none
  else none

/-- The first loop of `drawGame`: the body `grid[segment.y][segment.x] = 'o'` run on every
element of the range. -/
def drawSegments (grid : List (List Char)) : List Position → Option (List (List Char))
  | [] => some grid
  | segment :: rest => (setCell grid segment.x segment.y 'o').bind (fun g => drawSegments g rest)

/-- The character buffer that `drawGame` builds before it clears the console and prints.
The range expression of the first loop is `snake.getHead()` in the source, a single
`Position` and not the body (which is private to `SnakeLogic`), so the loop body runs on the
head and on no other segment; then the head is marked with `'O'`. -/
def drawGame (snake : SnakeLogic) : Option (List (List Char)) :=
  match snake.getHead with
  | none => none
  | some head =>
    (drawSegments (List.replicate HEIGHT.toNat (List.replicate WIDTH.toNat ' ')) [head]).bind
      (fun g => setCell g head.x head.y 'O')

/-- The character `grid[row][col]` of a buffer. -/
def cellAt (grid : List (List Char)) (row col : Nat) : Option Char :=
  (grid.get? row).bind (fun r => r.get? col)

/-- The start cell `{WIDTH / 2, HEIGHT / 2}` of `main`; `/` of C++ truncates. -/
def mainStart : Position := ⟨Int.tdiv WIDTH 2, Int.tdiv HEIGHT 2⟩

/-- The target `{WIDTH / 4, HEIGHT / 4}` of `main`. -/
def mainTarget : Position := ⟨Int.tdiv WIDTH 4, Int.tdiv HEIGHT 4⟩

/-- The function `main` of the source, cut after the first `ticks` iterations of its
`gameLoop` (the name `main` is reserved for the entry point of a program). -/
def mainLoop (ticks : Nat) : Option SnakeLogic :=
  gameLoop ticks (SnakeLogic.init mainStart) mainTarget

/-! ## Vocabulary of the properties -/

/-- The four axis-aligned neighbours of a cell, in the order up, left, down, right. -/
def neighbours (h : Position) : List Position :=
  [⟨h.x, h.y - 1⟩, ⟨h.x - 1, h.y⟩, ⟨h.x, h.y + 1⟩, ⟨h.x + 1, h.y⟩]

/-- Manhattan distance between two cells, over the mathematical integers. -/
def manhattan (a b : Position) : Int := |a.x - b.x| + |a.y - b.y|

/-- A cell is inside the grid and equal to no body segment. -/
def SnakeLogic.available (s : SnakeLogic) (c : Position) : Prop :=
  SnakeLogic.isInsideGrid c = true ∧ c ∉ s.mySnake.body

instance (s : SnakeLogic) (c : Position) : Decidable (s.available c) := by
  unfold SnakeLogic.available; infer_instance

/-- The body is non-empty and its head is inside the grid. -/
def SnakeLogic.headInGrid (s : SnakeLogic) : Prop :=
  ∃ h rest, s.mySnake.body = h :: rest ∧ SnakeLogic.isInsideGrid h = true

/-- The body is a head inside the grid, alone or followed by one segment next to it. -/
def SnakeLogic.shortChain (s : SnakeLogic) : Prop :=
  ∃ h, SnakeLogic.isInsideGrid h = true ∧
    (s.mySnake.body = [h] ∨ ∃ b, s.mySnake.body = [h, b] ∧ manhattan h b = 1)

/-! ## Auxiliary lemmas -/

theorem wrap32_eq_self {n : Int} (h : isInt32 n) : wrap32 n = n := by
  unfold isInt32 INT_MIN INT_MAX at h
  unfold wrap32
  omega

theorem wrap32_isInt32 (n : Int) : isInt32 (wrap32 n) := by
  unfold isInt32 INT_MIN INT_MAX wrap32
  omega

theorem isInsideGrid_iff (c : Position) :
    SnakeLogic.isInsideGrid c = true ↔ 0 ≤ c.x ∧ c.x < 20 ∧ 0 ≤ c.y ∧ c.y < 20 := by
  simp only [SnakeLogic.isInsideGrid, WIDTH, HEIGHT, Bool.and_eq_true, decide_eq_true_eq,
    ge_iff_le]
  tauto

theorem opEq_iff (a b : Position) : a.opEq b = true ↔ a = b := by
  cases a; cases b
  simp [Position.opEq]

theorem isCellFreeLoop_iff (pos : Position) (body : List Position) :
    SnakeLogic.isCellFreeLoop pos body = true ↔ pos ∉ body := by
  induction body with
  | nil => simp [SnakeLogic.isCellFreeLoop]
  | cons segment rest ih =>
    unfold SnakeLogic.isCellFreeLoop
    by_cases h : segment.opEq pos = true
    · have hseg : segment = pos := (opEq_iff segment pos).mp h
      rw [if_pos h, hseg]
      simp
    · have hne : ¬ pos = segment := fun e => h ((opEq_iff segment pos).mpr e.symm)
      rw [if_neg h, ih]
      simp [hne]

theorem ok_iff_available (s : SnakeLogic) (c : Position) :
    (SnakeLogic.isInsideGrid c && s.isCellFree c) = true ↔ s.available c := by
  simp [SnakeLogic.available, SnakeLogic.isCellFree, isCellFreeLoop_iff]

/-- On a cell of the grid and a representable target whose Manhattan distance is at most
`INT_MAX`, the machine computation of the distance does not overflow. -/
theorem distance_eq_manhattan {c t : Position} (hc : SnakeLogic.isInsideGrid c = true)
    (ht : t.valid) (hd : manhattan c t ≤ INT_MAX) : SnakeLogic.distance c t = manhattan c t := by
  rw [isInsideGrid_iff] at hc
  unfold Position.valid isInt32 INT_MIN INT_MAX at ht
  unfold manhattan INT_MAX at hd
  unfold SnakeLogic.distance manhattan add32 abs32 sub32 wrap32
  rcases abs_cases (c.x - t.x) with ⟨h1, h1'⟩ | ⟨h1, h1'⟩ <;>
  rcases abs_cases (c.y - t.y) with ⟨h2, h2'⟩ | ⟨h2, h2'⟩ <;>
  rw [h1, h2] at hd ⊢ <;> split_ifs <;> omega

theorem manhattan_le_of_grid {c t : Position} (hc : SnakeLogic.isInsideGrid c = true)
    (ht : SnakeLogic.isInsideGrid t = true) : manhattan c t ≤ 38 := by
  rw [isInsideGrid_iff] at hc ht
  unfold manhattan
  rcases abs_cases (c.x - t.x) with ⟨h1, h1'⟩ | ⟨h1, h1'⟩ <;>
  rcases abs_cases (c.y - t.y) with ⟨h2, h2'⟩ | ⟨h2, h2'⟩ <;>
  rw [h1, h2] <;> omega

theorem valid_of_grid {t : Position} (ht : SnakeLogic.isInsideGrid t = true) : t.valid := by
  rw [isInsideGrid_iff] at ht
  unfold Position.valid isInt32 INT_MIN INT_MAX
  omega

/-- A candidate outside the grid leaves the loop state of `chooseMove` unchanged, so two
candidates that are both outside the grid, or equal, act alike. -/
theorem chooseStep_congr (s : SnakeLogic) (t : Position) (best : Position × Int)
    {a b : Position}
    (h : (SnakeLogic.isInsideGrid a = false ∧ SnakeLogic.isInsideGrid b = false) ∨ a = b) :
    SnakeLogic.chooseStep s t best a = SnakeLogic.chooseStep s t best b := by
  rcases h with ⟨ha, hb⟩ | rfl
  · simp [SnakeLogic.chooseStep, ha, hb]
  · rfl

theorem grid_false_iff (c : Position) :
    SnakeLogic.isInsideGrid c = false ↔ ¬ (0 ≤ c.x ∧ c.x < 20 ∧ 0 ≤ c.y ∧ c.y < 20) := by
  rw [← isInsideGrid_iff]
  simp

/-- For a head with representable coordinates, a wrapped candidate of `moves` and the
corresponding mathematical neighbour are both outside the grid, or equal. -/
theorem moves_vs_neighbours {h : Position} (hv : h.valid) :
    ((SnakeLogic.isInsideGrid ⟨h.x, sub32 h.y 1⟩ = false ∧
        SnakeLogic.isInsideGrid ⟨h.x, h.y - 1⟩ = false) ∨
      (⟨h.x, sub32 h.y 1⟩ : Position) = ⟨h.x, h.y - 1⟩) ∧
    ((SnakeLogic.isInsideGrid ⟨sub32 h.x 1, h.y⟩ = false ∧
        SnakeLogic.isInsideGrid ⟨h.x - 1, h.y⟩ = false) ∨
      (⟨sub32 h.x 1, h.y⟩ : Position) = ⟨h.x - 1, h.y⟩) ∧
    ((SnakeLogic.isInsideGrid ⟨h.x, add32 h.y 1⟩ = false ∧
        SnakeLogic.isInsideGrid ⟨h.x, h.y + 1⟩ = false) ∨
      (⟨h.x, add32 h.y 1⟩ : Position) = ⟨h.x, h.y + 1⟩) ∧
    ((SnakeLogic.isInsideGrid ⟨add32 h.x 1, h.y⟩ = false ∧
        SnakeLogic.isInsideGrid ⟨h.x + 1, h.y⟩ = false) ∨
      (⟨add32 h.x 1, h.y⟩ : Position) = ⟨h.x + 1, h.y⟩) := by
  unfold Position.valid isInt32 INT_MIN INT_MAX at hv
  obtain ⟨⟨hx1, hx2⟩, hy1, hy2⟩ := hv
  simp only [grid_false_iff, Position.mk.injEq, true_and, and_true, sub32, add32, wrap32]
  refine ⟨?_, ?_, ?_, ?_⟩ <;> omega

/-- The loop of `chooseMove` over the wrapped candidates equals the loop over the
mathematical neighbours of a representable head. -/
theorem foldl_moves_eq_neighbours (s : SnakeLogic) (t : Position) {h : Position}
    (hv : h.valid) (best : Position × Int) :
    (SnakeLogic.moves h).foldl (SnakeLogic.chooseStep s t) best =
      (neighbours h).foldl (SnakeLogic.chooseStep s t) best := by
  obtain ⟨h1, h2, h3, h4⟩ := moves_vs_neighbours hv
  simp only [SnakeLogic.moves, neighbours, List.foldl]
  rw [chooseStep_congr s t best h1, chooseStep_congr s t _ h2, chooseStep_congr s t _ h3,
    chooseStep_congr s t _ h4]

/-- Invariant of the loop of `chooseMove` over any list of candidates: either no
candidate beat the initial distance and the state is unchanged, or the state holds the first
surviving candidate of least distance. -/
theorem foldl_chooseStep_inv (s : SnakeLogic) (t : Position) (b0 : Position) (d0 : Int)
    (L : List Position) :
    ((L.foldl (SnakeLogic.chooseStep s t) (b0, d0) = (b0, d0)) ∧
        ∀ c ∈ L, s.available c → d0 ≤ SnakeLogic.distance c t) ∨
    (∃ pre post, L = pre ++ (L.foldl (SnakeLogic.chooseStep s t) (b0, d0)).1 :: post ∧
        s.available (L.foldl (SnakeLogic.chooseStep s t) (b0, d0)).1 ∧
        (L.foldl (SnakeLogic.chooseStep s t) (b0, d0)).2 =
          SnakeLogic.distance (L.foldl (SnakeLogic.chooseStep s t) (b0, d0)).1 t ∧
        (L.foldl (SnakeLogic.chooseStep s t) (b0, d0)).2 < d0 ∧
        (∀ p ∈ pre, s.available p →
          (L.foldl (SnakeLogic.chooseStep s t) (b0, d0)).2 < SnakeLogic.distance p t) ∧
        (∀ q ∈ post, s.available q →
          (L.foldl (SnakeLogic.chooseStep s t) (b0, d0)).2 ≤ SnakeLogic.distance q t)) := by
  induction L using List.reverseRecOn with
  | nil => left; simp
  | append_singleton L a ih =>
    rw [List.foldl_append, List.foldl_cons, List.foldl_nil]
    generalize L.foldl (SnakeLogic.chooseStep s t) (b0, d0) = r at ih ⊢
    unfold SnakeLogic.chooseStep
    by_cases hok : (SnakeLogic.isInsideGrid a && s.isCellFree a) = true
    · have hav : s.available a := (ok_iff_available s a).mp hok
      by_cases hlt : SnakeLogic.distance a t < r.2
      · rw [if_pos hok, if_pos hlt]
        right
        refine ⟨L, [], rfl, hav, rfl, ?_, ?_, ?_⟩
        · rcases ih with ⟨hr, _⟩ | ⟨_, _, _, _, _, hd, _, _⟩
          · rw [hr] at hlt; exact hlt
          · exact lt_trans hlt hd
        · intro p hp hpa
          rcases ih with ⟨hr, hall⟩ | ⟨pre, post, hL, _, hrd, _, hpre, hpost⟩
          · rw [hr] at hlt
            exact lt_of_lt_of_le hlt (hall p hp hpa)
          · rw [hL] at hp
            rcases List.mem_append.mp hp with hp | hp
            · exact lt_trans hlt (hpre p hp hpa)
            · rcases List.mem_cons.mp hp with hp | hp
              · subst hp
                rw [← hrd]; exact hlt
              · exact lt_of_lt_of_le hlt (hpost p hp hpa)
        · intro q hq; simp at hq
      · rw [if_pos hok, if_neg hlt]
        rcases ih with ⟨hr, hall⟩ | ⟨pre, post, hL, hra, hrd, hd, hpre, hpost⟩
        · left
          refine ⟨hr, ?_⟩
          intro c hc hca
          rcases List.mem_append.mp hc with hc | hc
          · exact hall c hc hca
          · simp at hc; subst hc
            rw [hr] at hlt; exact not_lt.mp hlt
        · right
          refine ⟨pre, post ++ [a], ?_, hra, hrd, hd, hpre, ?_⟩
          · rw [hL]; simp
          · intro q hq hqa
            rcases List.mem_append.mp hq with hq | hq
            · exact hpost q hq hqa
            · simp at hq; subst hq
              exact not_lt.mp hlt
    · rw [if_neg hok]
      have hav : ¬ s.available a := fun h => hok ((ok_iff_available s a).mpr h)
      rcases ih with ⟨hr, hall⟩ | ⟨pre, post, hL, hra, hrd, hd, hpre, hpost⟩
      · left
        refine ⟨hr, ?_⟩
        intro c hc hca
        rcases List.mem_append.mp hc with hc | hc
        · exact hall c hc hca
        · simp at hc; subst hc
          exact absurd hca hav
      · right
        refine ⟨pre, post ++ [a], ?_, hra, hrd, hd, hpre, ?_⟩
        · rw [hL]; simp
        · intro q hq hqa
          rcases List.mem_append.mp hq with hq | hq
          · exact hpost q hq hqa
          · simp at hq; subst hq
            exact absurd hqa hav

/-- The invariant of the loop of `chooseMove`, with the final loop state named. -/
theorem foldl_chooseStep_cases (s : SnakeLogic) (t : Position) (b0 : Position) (d0 : Int)
    (L : List Position) :
    ∃ r : Position × Int, L.foldl (SnakeLogic.chooseStep s t) (b0, d0) = r ∧
      ((r = (b0, d0) ∧ ∀ c ∈ L, s.available c → d0 ≤ SnakeLogic.distance c t) ∨
       (∃ pre post, L = pre ++ r.1 :: post ∧ s.available r.1 ∧
          r.2 = SnakeLogic.distance r.1 t ∧ r.2 < d0 ∧
          (∀ p ∈ pre, s.available p → r.2 < SnakeLogic.distance p t) ∧
          (∀ q ∈ post, s.available q → r.2 ≤ SnakeLogic.distance q t))) :=
  ⟨_, rfl, foldl_chooseStep_inv s t b0 d0 L⟩

/-- With a non-empty body and a representable head, `chooseMove` returns the move held by
the loop state after the four mathematical neighbours have been visited. -/
theorem chooseMove_eq_foldl (s : SnakeLogic) (head : Position) (rest : List Position)
    (target : Position) (hb : s.mySnake.body = head :: rest) (hv : head.valid) :
    s.chooseMove target =
      some ((neighbours head).foldl (SnakeLogic.chooseStep s target) (head, INT_MAX)).1 := by
  unfold SnakeLogic.chooseMove
  rw [hb]
  simp only
  rw [foldl_moves_eq_neighbours s target hv]

theorem head_not_available (s : SnakeLogic) (head : Position) (rest : List Position)
    (hb : s.mySnake.body = head :: rest) : ¬ s.available head := by
  intro h
  apply h.2
  rw [hb]
  exact List.mem_cons_self head rest

theorem distance_le_INT_MAX (c t : Position) : SnakeLogic.distance c t ≤ INT_MAX := by
  unfold SnakeLogic.distance add32
  exact (wrap32_isInt32 _).2

/-! ## Properties of `chooseMove` -/

/-- C1 (counterexample): the claim fails for a target far outside the grid.  The actor
constructed at `(0,0)` has the body `[(0,0),(-1,0)]`; its neighbours `(0,1)` and `(1,0)` are
inside the grid and free, but both are at distance exactly `INT_MAX` from the representable
target `(-2147483646, 0)` (no overflow occurs), the strict comparison with the initial
`bestDistance = INT_MAX` never succeeds, and `chooseMove` returns the occupied head. -/
theorem chooseMove_far_target_returns_head :
    (SnakeLogic.init ⟨0, 0⟩).mySnake.body = [⟨0, 0⟩, ⟨-1, 0⟩] ∧
    Position.valid ⟨-2147483646, 0⟩ ∧
    (∃ c ∈ neighbours ⟨0, 0⟩, (SnakeLogic.init ⟨0, 0⟩).available c) ∧
    manhattan ⟨0, 1⟩ ⟨-2147483646, 0⟩ = INT_MAX ∧
    manhattan ⟨1, 0⟩ ⟨-2147483646, 0⟩ = INT_MAX ∧
    (SnakeLogic.init ⟨0, 0⟩).chooseMove ⟨-2147483646, 0⟩ = some ⟨0, 0⟩ ∧
    ¬ (SnakeLogic.init ⟨0, 0⟩).available ⟨0, 0⟩ := by
  refine ⟨by decide, by decide, ⟨⟨0, 1⟩, by decide, by decide⟩, by decide, by decide,
    by decide, by decide⟩

/-- C1 (amended): for every actor state with a non-empty body whose head is representable
and every representable target, if at least one of the four neighbours of the head is
inside the grid, free of body segments and at Manhattan distance below `INT_MAX` from the
target, then `chooseMove` returns one of the four neighbours that is inside the grid and
equal to no body segment; in particular it does not return the head. -/
theorem chooseMove_available_of_near (s : SnakeLogic) (head : Position)
    (rest : List Position) (target : Position) (hb : s.mySnake.body = head :: rest)
    (hv : head.valid) (ht : target.valid)
    (hex : ∃ c ∈ neighbours head, s.available c ∧ manhattan c target < INT_MAX) :
    ∃ m, s.chooseMove target = some m ∧ m ∈ neighbours head ∧ s.available m ∧ m ≠ head := by
  rw [chooseMove_eq_foldl s head rest target hb hv]
  obtain ⟨c, hc, hca, hcd⟩ := hex
  obtain ⟨r, hr, hcases⟩ := foldl_chooseStep_cases s target head INT_MAX (neighbours head)
  rw [hr]
  rcases hcases with ⟨_, hall⟩ | ⟨pre, post, hL, hra, _, _, _, _⟩
  · have h1 := hall c hc hca
    rw [distance_eq_manhattan hca.1 ht (le_of_lt hcd)] at h1
    exact absurd hcd (not_lt.mpr h1)
  · refine ⟨_, rfl, ?_, hra, ?_⟩
    · rw [hL]
      simp
    · intro he
      rw [he] at hra
      exact head_not_available s head rest hb hra

theorem chooseMove_available_of_near_witness :
    ∃ m, (SnakeLogic.init ⟨10, 10⟩).chooseMove ⟨5, 5⟩ = some m ∧ m ∈ neighbours ⟨10, 10⟩ ∧
      (SnakeLogic.init ⟨10, 10⟩).available m ∧ m ≠ ⟨10, 10⟩ :=
  chooseMove_available_of_near (SnakeLogic.init ⟨10, 10⟩) ⟨10, 10⟩ [⟨9, 10⟩] ⟨5, 5⟩
    (by decide) (by decide) (by decide) ⟨⟨10, 9⟩, by decide, by decide, by decide⟩

/-- C2: for every actor state with a non-empty body (head representable) and every target
inside the grid, if at least one of the four neighbours of the head is inside the grid and
free, then `chooseMove` returns one of those in-grid free neighbours, and its Manhattan
distance to the target is at most that of every in-grid free neighbour of the head. -/
theorem chooseMove_minimal_distance (s : SnakeLogic) (head : Position)
    (rest : List Position) (target : Position) (hb : s.mySnake.body = head :: rest)
    (hv : head.valid) (ht : SnakeLogic.isInsideGrid target = true)
    (hex : ∃ c ∈ neighbours head, s.available c) :
    ∃ m, s.chooseMove target = some m ∧ m ∈ neighbours head ∧ s.available m ∧
      ∀ c ∈ neighbours head, s.available c → manhattan m target ≤ manhattan c target := by
  have hdist : ∀ c, s.available c → SnakeLogic.distance c target = manhattan c target ∧
      manhattan c target < INT_MAX := by
    intro c hc
    have h38 := manhattan_le_of_grid hc.1 ht
    have hlt : manhattan c target < INT_MAX := by unfold INT_MAX; omega
    exact ⟨distance_eq_manhattan hc.1 (valid_of_grid ht) (le_of_lt hlt), hlt⟩
  rw [chooseMove_eq_foldl s head rest target hb hv]
  obtain ⟨c, hc, hca⟩ := hex
  obtain ⟨r, hr, hcases⟩ := foldl_chooseStep_cases s target head INT_MAX (neighbours head)
  rw [hr]
  rcases hcases with ⟨_, hall⟩ | ⟨pre, post, hL, hra, hrd, _, hpre, hpost⟩
  · have h1 := hall c hc hca
    rw [(hdist c hca).1] at h1
    exact absurd (hdist c hca).2 (not_lt.mpr h1)
  · refine ⟨_, rfl, ?_, hra, ?_⟩
    · rw [hL]
      simp
    · intro c' hc' hca'
      rw [← (hdist r.1 hra).1, ← (hdist c' hca').1, ← hrd]
      rw [hL] at hc'
      rcases List.mem_append.mp hc' with h | h
      · exact le_of_lt (hpre c' h hca')
      · rcases List.mem_cons.mp h with h | h
        · rw [h, hrd]
        · exact hpost c' h hca'

theorem chooseMove_minimal_distance_witness :
    ∃ m, (SnakeLogic.init ⟨10, 10⟩).chooseMove ⟨5, 5⟩ = some m ∧ m ∈ neighbours ⟨10, 10⟩ ∧
      (SnakeLogic.init ⟨10, 10⟩).available m ∧
      ∀ c ∈ neighbours ⟨10, 10⟩, (SnakeLogic.init ⟨10, 10⟩).available c →
        manhattan m ⟨5, 5⟩ ≤ manhattan c ⟨5, 5⟩ :=
  chooseMove_minimal_distance (SnakeLogic.init ⟨10, 10⟩) ⟨10, 10⟩ [⟨9, 10⟩] ⟨5, 5⟩
    (by decide) (by decide) (by decide) ⟨⟨10, 9⟩, by decide, by decide⟩

/-- C3: tie-break.  For every actor state with a non-empty body (head representable) and
every target inside the grid, if some neighbour of the head is inside the grid and free,
then `chooseMove` returns an in-grid free neighbour `m` that splits the list up, left, down,
right of the neighbours into `pre ++ m :: post`, where every in-grid free neighbour
enumerated before `m` is strictly farther from the target than `m` and every in-grid free
neighbour enumerated after `m` is at least as far: `m` is the first one in the fixed order
that attains the minimum. -/
theorem chooseMove_first_minimum (s : SnakeLogic) (head : Position)
    (rest : List Position) (target : Position) (hb : s.mySnake.body = head :: rest)
    (hv : head.valid) (ht : SnakeLogic.isInsideGrid target = true)
    (hex : ∃ c ∈ neighbours head, s.available c) :
    ∃ m pre post, s.chooseMove target = some m ∧ s.available m ∧
      neighbours head =
        [⟨head.x, head.y - 1⟩, ⟨head.x - 1, head.y⟩, ⟨head.x, head.y + 1⟩,
          ⟨head.x + 1, head.y⟩] ∧
      neighbours head = pre ++ m :: post ∧
      (∀ p ∈ pre, s.available p → manhattan m target < manhattan p target) ∧
      (∀ q ∈ post, s.available q → manhattan m target ≤ manhattan q target) := by
  have hdist : ∀ c, s.available c → SnakeLogic.distance c target = manhattan c target ∧
      manhattan c target < INT_MAX := by
    intro c hc
    have h38 := manhattan_le_of_grid hc.1 ht
    have hlt : manhattan c target < INT_MAX := by unfold INT_MAX; omega
    exact ⟨distance_eq_manhattan hc.1 (valid_of_grid ht) (le_of_lt hlt), hlt⟩
  rw [chooseMove_eq_foldl s head rest target hb hv]
  obtain ⟨c, hc, hca⟩ := hex
  obtain ⟨r, hr, hcases⟩ := foldl_chooseStep_cases s target head INT_MAX (neighbours head)
  rw [hr]
  rcases hcases with ⟨_, hall⟩ | ⟨pre, post, hL, hra, hrd, _, hpre, hpost⟩
  · have h1 := hall c hc hca
    rw [(hdist c hca).1] at h1
    exact absurd (hdist c hca).2 (not_lt.mpr h1)
  · refine ⟨r.1, pre, post, rfl, hra, rfl, hL, ?_, ?_⟩
    · intro p hp hpa
      rw [← (hdist r.1 hra).1, ← (hdist p hpa).1, ← hrd]
      exact hpre p hp hpa
    · intro q hq hqa
      rw [← (hdist r.1 hra).1, ← (hdist q hqa).1, ← hrd]
      exact hpost q hq hqa

theorem chooseMove_first_minimum_witness :
    (SnakeLogic.mk ⟨[⟨5, 5⟩]⟩).chooseMove ⟨5, 5⟩ = some ⟨5, 4⟩ ∧
    (∀ c ∈ neighbours ⟨5, 5⟩, (SnakeLogic.mk ⟨[⟨5, 5⟩]⟩).available c ∧
      manhattan c ⟨5, 5⟩ = 1) ∧
    ∃ m pre post, (SnakeLogic.mk ⟨[⟨5, 5⟩]⟩).chooseMove ⟨5, 5⟩ = some m ∧
      (SnakeLogic.mk ⟨[⟨5, 5⟩]⟩).available m ∧
      neighbours ⟨5, 5⟩ = [⟨5, 5 - 1⟩, ⟨5 - 1, 5⟩, ⟨5, 5 + 1⟩, ⟨5 + 1, 5⟩] ∧
      neighbours ⟨5, 5⟩ = pre ++ m :: post ∧
      (∀ p ∈ pre, (SnakeLogic.mk ⟨[⟨5, 5⟩]⟩).available p →
        manhattan m ⟨5, 5⟩ < manhattan p ⟨5, 5⟩) ∧
      (∀ q ∈ post, (SnakeLogic.mk ⟨[⟨5, 5⟩]⟩).available q →
        manhattan m ⟨5, 5⟩ ≤ manhattan q ⟨5, 5⟩) :=
  ⟨by decide, by decide,
    chooseMove_first_minimum (SnakeLogic.mk ⟨[⟨5, 5⟩]⟩) ⟨5, 5⟩ [] ⟨5, 5⟩
      rfl (by decide) (by decide) ⟨⟨5, 4⟩, by decide, by decide⟩⟩

/-- C4: for every actor state with a non-empty body (head representable) and every target
cell, if none of the four neighbours of the head is both inside the grid and free of body
segments, then `chooseMove` returns exactly the current head `body[0]`. -/
theorem chooseMove_head_of_no_candidate (s : SnakeLogic) (head : Position)
    (rest : List Position) (target : Position) (hb : s.mySnake.body = head :: rest)
    (hv : head.valid) (hno : ∀ c ∈ neighbours head, ¬ s.available c) :
    s.chooseMove target = some head := by
  rw [chooseMove_eq_foldl s head rest target hb hv]
  obtain ⟨r, hr, hcases⟩ := foldl_chooseStep_cases s target head INT_MAX (neighbours head)
  rw [hr]
  rcases hcases with ⟨hinit, _⟩ | ⟨pre, post, hL, hra, _, _, _, _⟩
  · rw [hinit]
  · exfalso
    apply hno r.1 _ hra
    rw [hL]
    simp

theorem chooseMove_head_of_no_candidate_witness :
    (SnakeLogic.mk ⟨[⟨0, 0⟩, ⟨0, 1⟩, ⟨1, 0⟩]⟩).chooseMove ⟨5, 5⟩ = some ⟨0, 0⟩ :=
  chooseMove_head_of_no_candidate (SnakeLogic.mk ⟨[⟨0, 0⟩, ⟨0, 1⟩, ⟨1, 0⟩]⟩) ⟨0, 0⟩
    [⟨0, 1⟩, ⟨1, 0⟩] ⟨5, 5⟩ rfl (by decide) (by decide)

/-! ## Properties of the constructor, `update` and `getHead` -/

theorem update_length (s : SnakeLogic) (newHead : Position) :
    (s.update newHead).mySnake.body.length = s.mySnake.body.length := by
  simp [SnakeLogic.update, List.length_dropLast]

theorem updateAll_length (heads : List Position) :
    ∀ s : SnakeLogic, (updateAll s heads).mySnake.body.length = s.mySnake.body.length := by
  induction heads with
  | nil => intro s; rfl
  | cons h hs ih =>
    intro s
    show (updateAll (s.update h) hs).mySnake.body.length = s.mySnake.body.length
    rw [ih (s.update h), update_length]

theorem tmod_two_eq_zero_iff_even (n : Int) : Int.tmod n 2 = 0 ↔ Even n := by
  rw [← Int.dvd_iff_tmod_eq_zero, even_iff_two_dvd]

theorem init_length_pos (start : Position) : 0 < (SnakeLogic.init start).mySnake.body.length := by
  unfold SnakeLogic.init
  split_ifs <;> simp

/-- C5: for every actor state and every finite sequence of cells, the body length after
the `update` calls on these cells, in order, equals the body length before the calls. -/
theorem update_sequence_preserves_length (s : SnakeLogic) (heads : List Position) :
    (heads.foldl SnakeLogic.update s).mySnake.body.length = s.mySnake.body.length :=
  updateAll_length heads s

/-- C6 (counterexample): the start cell `(-2147483648, 5)` has representable coordinates
and an even (negative) `x`, yet the constructed body is `[(-2147483648,5), (2147483647,5)]`:
the subtraction `start.x - 1` overflows at `INT_MIN` and wraps to `INT_MAX`, so the second
segment is not `(start.x - 1, start.y)`. -/
theorem init_body_at_int_min :
    Position.valid ⟨-2147483648, 5⟩ ∧ Even (-2147483648 : Int) ∧
    (SnakeLogic.init ⟨-2147483648, 5⟩).mySnake.body =
      [⟨-2147483648, 5⟩, ⟨2147483647, 5⟩] ∧
    (SnakeLogic.init ⟨-2147483648, 5⟩).mySnake.body ≠
      [⟨-2147483648, 5⟩, ⟨-2147483648 - 1, 5⟩] := by
  refine ⟨by decide, by decide, by decide, by decide⟩

/-- C6 (amended): construction.  For every start cell, if `start.x` is even (zero and
negative even values included) and is a representable `int` greater than `INT_MIN`, the
constructed body is exactly `[start, (start.x - 1, start.y)]`; if `start.x` is odd the
constructed body is exactly `[start]`. -/
theorem init_body (start : Position) :
    (Even start.x → INT_MIN < start.x → start.x ≤ INT_MAX →
      (SnakeLogic.init start).mySnake.body = [start, ⟨start.x - 1, start.y⟩]) ∧
    (¬ Even start.x → (SnakeLogic.init start).mySnake.body = [start]) := by
  refine ⟨?_, ?_⟩
  · intro he hlo hhi
    unfold SnakeLogic.init
    rw [if_pos ((tmod_two_eq_zero_iff_even start.x).mpr he)]
    have hsub : sub32 start.x 1 = start.x - 1 := by
      unfold INT_MIN at hlo
      unfold INT_MAX at hhi
      unfold sub32 wrap32
      omega
    rw [hsub]
  · intro hodd
    unfold SnakeLogic.init
    rw [if_neg (fun h => hodd ((tmod_two_eq_zero_iff_even start.x).mp h))]

theorem init_body_witness :
    (SnakeLogic.init ⟨10, 10⟩).mySnake.body = [⟨10, 10⟩, ⟨9, 10⟩] ∧
    (SnakeLogic.init ⟨-4, 7⟩).mySnake.body = [⟨-4, 7⟩, ⟨-5, 7⟩] ∧
    (SnakeLogic.init ⟨0, 3⟩).mySnake.body = [⟨0, 3⟩, ⟨-1, 3⟩] ∧
    (SnakeLogic.init ⟨11, 10⟩).mySnake.body = [⟨11, 10⟩] ∧
    (SnakeLogic.init ⟨-3, 2⟩).mySnake.body = [⟨-3, 2⟩] :=
  ⟨(init_body ⟨10, 10⟩).1 (by decide) (by decide) (by decide),
   (init_body ⟨-4, 7⟩).1 (by decide) (by decide) (by decide),
   (init_body ⟨0, 3⟩).1 (by decide) (by decide) (by decide),
   (init_body ⟨11, 10⟩).2 (by decide),
   (init_body ⟨-3, 2⟩).2 (by decide)⟩

/-- C7: end-to-end single tick.  With `WIDTH = HEIGHT = 20`, the actor constructed from
start `(10,10)` has the body `[(10,10),(9,10)]`, so the left neighbour `(9,10)` is occupied
and not free; `chooseMove` for the target `(5,5)` returns `(10,9)`, and after the `update`
of one tick the head is `(10,9)`. -/
theorem first_tick_moves_up :
    WIDTH = 20 ∧ HEIGHT = 20 ∧
    (SnakeLogic.init ⟨10, 10⟩).mySnake.body = [⟨10, 10⟩, ⟨9, 10⟩] ∧
    (SnakeLogic.init ⟨10, 10⟩).isCellFree ⟨9, 10⟩ = false ∧
    (SnakeLogic.init ⟨10, 10⟩).chooseMove ⟨5, 5⟩ = some ⟨10, 9⟩ ∧
    gameLoopStep (SnakeLogic.init ⟨10, 10⟩) ⟨5, 5⟩ = some ⟨⟨[⟨10, 9⟩, ⟨10, 10⟩]⟩⟩ ∧
    (gameLoop 1 (SnakeLogic.init ⟨10, 10⟩) ⟨5, 5⟩).bind SnakeLogic.getHead = some ⟨10, 9⟩ := by
  refine ⟨rfl, rfl, by decide, by decide, by decide, by decide, by decide⟩

/-- C8: for every non-empty body and every cell `newHead`, the body after
`update(newHead)` is `newHead` followed by the old body without its last element, and
`getHead` then returns `newHead`. -/
theorem update_body (s : SnakeLogic) (newHead : Position) (hne : s.mySnake.body ≠ []) :
    (s.update newHead).mySnake.body = newHead :: s.mySnake.body.dropLast ∧
    (s.update newHead).getHead = some newHead := by
  obtain ⟨⟨body⟩⟩ := s
  cases body with
  | nil => exact absurd rfl hne
  | cons b bs => simp [SnakeLogic.update, SnakeLogic.getHead, List.dropLast]

theorem update_body_witness :
    ((SnakeLogic.mk ⟨[⟨2, 3⟩, ⟨2, 4⟩]⟩).update ⟨2, 2⟩).mySnake.body =
        ⟨2, 2⟩ :: List.dropLast [⟨2, 3⟩, ⟨2, 4⟩] ∧
    ((SnakeLogic.mk ⟨[⟨2, 3⟩, ⟨2, 4⟩]⟩).update ⟨2, 2⟩).getHead = some ⟨2, 2⟩ :=
  update_body (SnakeLogic.mk ⟨[⟨2, 3⟩, ⟨2, 4⟩]⟩) ⟨2, 2⟩ (by decide)

/-- C9: for every start cell and every finite sequence of `update` calls applied to the
constructed actor, the body is non-empty, so `getHead` and `chooseMove` (for any target)
find `body[0]` and return a cell. -/
theorem body_nonempty_after_updates (start : Position) (heads : List Position) :
    (heads.foldl SnakeLogic.update (SnakeLogic.init start)).mySnake.body ≠ [] ∧
    (∃ h, (heads.foldl SnakeLogic.update (SnakeLogic.init start)).getHead = some h) ∧
    ∀ target, ∃ m,
      (heads.foldl SnakeLogic.update (SnakeLogic.init start)).chooseMove target = some m := by
  have hlen := updateAll_length heads (SnakeLogic.init start)
  have hpos := init_length_pos start
  unfold updateAll at hlen
  generalize heads.foldl SnakeLogic.update (SnakeLogic.init start) = s at hlen ⊢
  obtain ⟨⟨body⟩⟩ := s
  cases body with
  | nil => simp at hlen; omega
  | cons b bs =>
    refine ⟨by simp, ⟨b, rfl⟩, fun target => ⟨_, rfl⟩⟩

/-! ## Grid geometry -/

/-- C10: for every cell `c` with integer coordinates, negative ones included,
`isInsideGrid c` is true if and only if `0 ≤ c.x < 20` and `0 ≤ c.y < 20`. -/
theorem isInsideGrid_spec (c : Position) :
    SnakeLogic.isInsideGrid c = true ↔ (0 ≤ c.x ∧ c.x < 20) ∧ (0 ≤ c.y ∧ c.y < 20) := by
  rw [isInsideGrid_iff]
  tauto

/-! ## Occupancy test -/

/-- C11: for every actor state and every cell `c`, `isCellFree c` is true if and only if no
segment of the body has both coordinates equal to those of `c`; the head counts as a
segment, so the head cell itself is never free. -/
theorem isCellFree_spec (s : SnakeLogic) (c : Position) :
    (s.isCellFree c = true ↔
      ∀ segment ∈ s.mySnake.body, ¬ (segment.x = c.x ∧ segment.y = c.y)) ∧
    ∀ rest : List Position, (SnakeLogic.mk ⟨c :: rest⟩).isCellFree c = false := by
  constructor
  · unfold SnakeLogic.isCellFree
    rw [isCellFreeLoop_iff]
    constructor
    · intro hnot segment hseg heq
      apply hnot
      have hsc : segment = c := by
        cases segment; cases c
        simp only [Position.mk.injEq]
        exact heq
      rw [← hsc]
      exact hseg
    · intro hall hmem
      exact hall c hmem ⟨rfl, rfl⟩
  · intro rest
    have hmem : ¬ c ∉ (SnakeLogic.mk ⟨c :: rest⟩).mySnake.body :=
      fun h => h (List.mem_cons_self c rest)
    have hiff := isCellFreeLoop_iff c (SnakeLogic.mk ⟨c :: rest⟩).mySnake.body
    unfold SnakeLogic.isCellFree
    cases hfree : SnakeLogic.isCellFreeLoop c (SnakeLogic.mk ⟨c :: rest⟩).mySnake.body with
    | false => rfl
    | true => exact absurd (hiff.mp hfree) hmem

/-! ## Renderer -/

/-- C12 (the code at the failing input): the body `[(2,3),(2,4)]`, reached after one tick
from the start `(2,4)` with target `(2,0)`, is drawn with the head marker `'O'` at row 3,
column 2 and a blank at every other cell of the 20x20 buffer, row 4, column 2 included: the
loop that should mark the body segments runs on `snake.getHead()` only. -/
theorem drawGame_marks_head_only :
    gameLoop 1 (SnakeLogic.init ⟨2, 4⟩) ⟨2, 0⟩ = some ⟨⟨[⟨2, 3⟩, ⟨2, 4⟩]⟩⟩ ∧
    ∃ g, drawGame ⟨⟨[⟨2, 3⟩, ⟨2, 4⟩]⟩⟩ = some g ∧
      cellAt g 3 2 = some 'O' ∧ cellAt g 4 2 = some ' ' ∧ cellAt g 4 2 ≠ some 'o' ∧
      ∀ row : Fin 20, ∀ col : Fin 20,
        cellAt g row.val col.val = some (if row.val = 3 ∧ col.val = 2 then 'O' else ' ') := by
  refine ⟨by decide, _, rfl, by decide, by decide, by decide, by decide⟩

/-! ## Stay-in-place update -/

/-- C13 (counterexample): the actor constructed at `(11,10)` has the one-segment body
`[(11,10)]`; after `update(getHead())` the body is again `[(11,10)]`: it has one segment, not
two equal leading cells, and is identical to the body before the call. -/
theorem update_head_single_segment_unchanged :
    (SnakeLogic.init ⟨11, 10⟩).mySnake.body = [⟨11, 10⟩] ∧
    (SnakeLogic.init ⟨11, 10⟩).getHead = some ⟨11, 10⟩ ∧
    ((SnakeLogic.init ⟨11, 10⟩).update ⟨11, 10⟩).mySnake.body = [⟨11, 10⟩] ∧
    ¬ 2 ≤ ((SnakeLogic.init ⟨11, 10⟩).update ⟨11, 10⟩).mySnake.body.length ∧
    ((SnakeLogic.init ⟨11, 10⟩).update ⟨11, 10⟩).mySnake.body =
      (SnakeLogic.init ⟨11, 10⟩).mySnake.body := by
  refine ⟨by decide, by decide, by decide, by decide, by decide⟩

/-- C13 (amended): for every actor state whose body has at least two segments, `getHead`
returns `body[0]` and after `update(getHead())` the body has at least two segments, its two
leading cells both equal the old head, and it differs from the body before the call
whenever the old second segment differs from the head; a one-segment body is left
unchanged by `update(getHead())`. -/
theorem update_head_duplicates (s : SnakeLogic) :
    (∀ h b rest, s.mySnake.body = h :: b :: rest →
      s.getHead = some h ∧
      (s.update h).mySnake.body = h :: h :: (b :: rest).dropLast ∧
      2 ≤ (s.update h).mySnake.body.length ∧
      (b ≠ h → (s.update h).mySnake.body ≠ s.mySnake.body)) ∧
    (∀ h, s.mySnake.body = [h] → s.getHead = some h ∧ (s.update h).mySnake.body = [h]) := by
  constructor
  · intro h b rest hb
    have hupd : (s.update h).mySnake.body = h :: h :: (b :: rest).dropLast := by
      simp [SnakeLogic.update, hb, List.dropLast]
    refine ⟨by simp [SnakeLogic.getHead, hb], hupd, ?_, ?_⟩
    · rw [hupd]
      simp
    · intro hne heq
      rw [hupd, hb] at heq
      simp only [List.cons.injEq, true_and] at heq
      exact hne heq.1.symm
  · intro h hb
    exact ⟨by simp [SnakeLogic.getHead, hb], by simp [SnakeLogic.update, hb, List.dropLast]⟩

theorem update_head_duplicates_witness :
    (SnakeLogic.init ⟨10, 10⟩).getHead = some ⟨10, 10⟩ ∧
    ((SnakeLogic.init ⟨10, 10⟩).update ⟨10, 10⟩).mySnake.body =
      ⟨10, 10⟩ :: ⟨10, 10⟩ :: List.dropLast [(⟨9, 10⟩ : Position)] ∧
    2 ≤ ((SnakeLogic.init ⟨10, 10⟩).update ⟨10, 10⟩).mySnake.body.length ∧
    (((⟨9, 10⟩ : Position) ≠ ⟨10, 10⟩) →
      ((SnakeLogic.init ⟨10, 10⟩).update ⟨10, 10⟩).mySnake.body ≠
        (SnakeLogic.init ⟨10, 10⟩).mySnake.body) :=
  (update_head_duplicates (SnakeLogic.init ⟨10, 10⟩)).1 ⟨10, 10⟩ ⟨9, 10⟩ [] (by decide)

/-! ## The configuration of `main` -/

/-- C17: the actor of `main` starts at `(WIDTH/2, HEIGHT/2) = (10,10)` with the target
`(WIDTH/4, HEIGHT/4) = (5,5)`; for every `k` in `0..10` the loop returns a state after `k`
ticks whose head is at Manhattan distance exactly `10 - k` from the target, so the head
equals `(5,5)` after 10 ticks and at no earlier tick. -/
theorem main_reaches_target_in_ten_ticks :
    mainStart = ⟨10, 10⟩ ∧ mainTarget = ⟨5, 5⟩ ∧
    (∀ k : Fin 11, ((mainLoop k.val).bind SnakeLogic.getHead).map
        (fun h => manhattan h mainTarget) = some (10 - (k.val : Int))) ∧
    (∀ k : Fin 11, (mainLoop k.val).bind SnakeLogic.getHead = some ⟨5, 5⟩ ↔ k.val = 10) := by
  refine ⟨by decide, by decide, by decide, by decide⟩

/-! ## Reachable states of the driver loop -/

theorem neighbours_mem_iff (h c : Position) :
    c ∈ neighbours h ↔
      (c.x = h.x ∧ c.y = h.y - 1) ∨ (c.x = h.x - 1 ∧ c.y = h.y) ∨
      (c.x = h.x ∧ c.y = h.y + 1) ∨ (c.x = h.x + 1 ∧ c.y = h.y) := by
  cases c
  simp [neighbours]

theorem position_ne_of_x {a b : Position} (h : a.x ≠ b.x) : a ≠ b :=
  fun e => h (by rw [e])

theorem position_ne_of_y {a b : Position} (h : a.y ≠ b.y) : a ≠ b :=
  fun e => h (by rw [e])

theorem manhattan_neighbour {h c : Position} (hc : c ∈ neighbours h) : manhattan c h = 1 := by
  rw [neighbours_mem_iff] at hc
  unfold manhattan
  rcases hc with ⟨hx, hy⟩ | ⟨hx, hy⟩ | ⟨hx, hy⟩ | ⟨hx, hy⟩ <;> rw [hx, hy] <;> simp

theorem manhattan_one_ne {a b : Position} (h : manhattan a b = 1) : a ≠ b := by
  intro e
  rw [e] at h
  simp [manhattan] at h

/-- Whatever the target, `chooseMove` returns the head or an in-grid free neighbour. -/
theorem chooseMove_result_cases (s : SnakeLogic) (head : Position) (rest : List Position)
    (target : Position) (hb : s.mySnake.body = head :: rest) (hv : head.valid) :
    ∃ m, s.chooseMove target = some m ∧
      (m = head ∨ (m ∈ neighbours head ∧ s.available m)) := by
  rw [chooseMove_eq_foldl s head rest target hb hv]
  obtain ⟨r, hr, hcases⟩ := foldl_chooseStep_cases s target head INT_MAX (neighbours head)
  rw [hr]
  rcases hcases with ⟨hinit, _⟩ | ⟨pre, post, hL, hra, _, _, _, _⟩
  · exact ⟨_, rfl, Or.inl (by rw [hinit])⟩
  · refine ⟨_, rfl, Or.inr ⟨?_, hra⟩⟩
    rw [hL]
    simp

/-- For a target inside the grid, `chooseMove` returns an in-grid free neighbour as soon
as there is one. -/
theorem chooseMove_available_in_grid (s : SnakeLogic) (head : Position)
    (rest : List Position) (target : Position) (hb : s.mySnake.body = head :: rest)
    (hv : head.valid) (ht : SnakeLogic.isInsideGrid target = true)
    (hex : ∃ c ∈ neighbours head, s.available c) :
    ∃ m, s.chooseMove target = some m ∧ m ∈ neighbours head ∧ s.available m := by
  rw [chooseMove_eq_foldl s head rest target hb hv]
  obtain ⟨c, hc, hca⟩ := hex
  obtain ⟨r, hr, hcases⟩ := foldl_chooseStep_cases s target head INT_MAX (neighbours head)
  rw [hr]
  rcases hcases with ⟨_, hall⟩ | ⟨pre, post, hL, hra, _, _, _, _⟩
  · have h38 := manhattan_le_of_grid hca.1 ht
    have hle : manhattan c target ≤ INT_MAX := by unfold INT_MAX; omega
    have h1 := hall c hc hca
    rw [distance_eq_manhattan hca.1 (valid_of_grid ht) hle] at h1
    unfold INT_MAX at h1
    omega
  · refine ⟨_, rfl, ?_, hra⟩
    rw [hL]
    simp

/-- A head inside the grid has an in-grid neighbour above or below it and one to its left
or right. -/
theorem grid_neighbours_exist {h : Position} (hin : SnakeLogic.isInsideGrid h = true) :
    (∃ v ∈ neighbours h, SnakeLogic.isInsideGrid v = true ∧ v.x = h.x ∧ v.y ≠ h.y) ∧
    (∃ w ∈ neighbours h, SnakeLogic.isInsideGrid w = true ∧ w.y = h.y ∧ w.x ≠ h.x) := by
  rw [isInsideGrid_iff] at hin
  obtain ⟨hx0, hx1, hy0, hy1⟩ := hin
  constructor
  · by_cases hy : 1 ≤ h.y
    · refine ⟨⟨h.x, h.y - 1⟩, by simp [neighbours], ?_, rfl, ?_⟩
      · rw [isInsideGrid_iff]; simp only; omega
      · simp only; omega
    · refine ⟨⟨h.x, h.y + 1⟩, by simp [neighbours], ?_, rfl, ?_⟩
      · rw [isInsideGrid_iff]; simp only; omega
      · simp only; omega
  · by_cases hx : 1 ≤ h.x
    · refine ⟨⟨h.x - 1, h.y⟩, by simp [neighbours], ?_, rfl, ?_⟩
      · rw [isInsideGrid_iff]; simp only; omega
      · simp only; omega
    · refine ⟨⟨h.x + 1, h.y⟩, by simp [neighbours], ?_, rfl, ?_⟩
      · rw [isInsideGrid_iff]; simp only; omega
      · simp only; omega

/-- A body of at most two segments cannot block a head that is inside the grid. -/
theorem exists_available_neighbour (s : SnakeLogic) (h : Position)
    (hin : SnakeLogic.isInsideGrid h = true)
    (hbody : s.mySnake.body = [h] ∨ ∃ b, s.mySnake.body = [h, b]) :
    ∃ c ∈ neighbours h, s.available c := by
  obtain ⟨⟨v, hv, hvin, hvx, hvy⟩, ⟨w, hw, hwin, hwy, hwx⟩⟩ := grid_neighbours_exist hin
  have hvh : v ≠ h := position_ne_of_y hvy
  have hwh : w ≠ h := position_ne_of_x hwx
  have hvw : v ≠ w := by
    apply position_ne_of_x
    rw [hvx]
    exact fun e => hwx e.symm
  rcases hbody with hb | ⟨b, hb⟩
  · refine ⟨v, hv, hvin, ?_⟩
    rw [hb]
    simp [hvh]
  · by_cases hvb : v = b
    · refine ⟨w, hw, hwin, ?_⟩
      rw [hb]
      have hwb : w ≠ b := by rw [← hvb]; exact fun e => hvw e.symm
      simp [hwh, hwb]
    · refine ⟨v, hv, hvin, ?_⟩
      rw [hb]
      simp [hvh, hvb]

theorem init_shortChain {start : Position} (hin : SnakeLogic.isInsideGrid start = true) :
    (SnakeLogic.init start).shortChain := by
  refine ⟨start, hin, ?_⟩
  unfold SnakeLogic.init
  split_ifs
  · right
    have hsub : sub32 start.x 1 = start.x - 1 := by
      rw [isInsideGrid_iff] at hin
      unfold sub32 wrap32
      omega
    refine ⟨⟨start.x - 1, start.y⟩, by rw [hsub], ?_⟩
    simp [manhattan]
  · left; rfl

/-- One tick from a short chain with a target inside the grid: `chooseMove` returns a cell
other than the head, and the next state is a short chain again. -/
theorem gameLoopStep_shortChain (s : SnakeLogic) (target : Position)
    (hs : s.shortChain) (ht : SnakeLogic.isInsideGrid target = true) :
    ∃ h m, s.getHead = some h ∧ s.chooseMove target = some m ∧ m ≠ h ∧
      gameLoopStep s target = some (s.update m) ∧ (s.update m).shortChain := by
  obtain ⟨h, hin, hbody⟩ := hs
  have hb : ∃ rest, s.mySnake.body = h :: rest ∧
      (s.mySnake.body = [h] ∨ ∃ b, s.mySnake.body = [h, b]) := by
    rcases hbody with hb | ⟨b, hb, _⟩
    · exact ⟨[], hb, Or.inl hb⟩
    · exact ⟨[b], hb, Or.inr ⟨b, hb⟩⟩
  obtain ⟨rest, hcons, hshort⟩ := hb
  obtain ⟨m, hm, hmn, hma⟩ := chooseMove_available_in_grid s h rest target hcons
    (valid_of_grid hin) ht (exists_available_neighbour s h hin hshort)
  have hmh : m ≠ h := fun e => head_not_available s h rest hcons (e ▸ hma)
  refine ⟨h, m, by simp [SnakeLogic.getHead, hcons], hm, hmh, by simp [gameLoopStep, hm], ?_⟩
  refine ⟨m, hma.1, ?_⟩
  rcases hshort with hb | ⟨b, hb⟩
  · left
    simp [SnakeLogic.update, hb, List.dropLast]
  · right
    exact ⟨h, by simp [SnakeLogic.update, hb, List.dropLast], manhattan_neighbour hmn⟩

theorem gameLoop_shortChain (target : Position) (ht : SnakeLogic.isInsideGrid target = true) :
    ∀ (n : Nat) (s : SnakeLogic), s.shortChain →
      ∃ s2, gameLoop n s target = some s2 ∧ s2.shortChain := by
  intro n
  induction n with
  | zero => intro s hs; exact ⟨s, rfl, hs⟩
  | succ n ih =>
    intro s hs
    obtain ⟨h, m, _, _, _, hstep, hnext⟩ := gameLoopStep_shortChain s target hs ht
    obtain ⟨s2, hs2, hchain⟩ := ih (s.update m) hnext
    refine ⟨s2, ?_, hchain⟩
    show (gameLoopStep s target).bind (fun next => gameLoop n next target) = some s2
    rw [hstep]
    exact hs2

/-- One tick, whatever the target, keeps the head inside the grid. -/
theorem gameLoopStep_headInGrid (s : SnakeLogic) (target : Position) (hs : s.headInGrid) :
    ∃ s2, gameLoopStep s target = some s2 ∧ s2.headInGrid := by
  obtain ⟨h, rest, hb, hin⟩ := hs
  obtain ⟨m, hm, hcase⟩ := chooseMove_result_cases s h rest target hb (valid_of_grid hin)
  have hmin : SnakeLogic.isInsideGrid m = true := by
    rcases hcase with he | ⟨_, hma⟩
    · rw [he]; exact hin
    · exact hma.1
  refine ⟨s.update m, by simp [gameLoopStep, hm], m, (h :: rest).dropLast, ?_, hmin⟩
  simp [SnakeLogic.update, hb, List.dropLast]

theorem gameLoop_headInGrid (target : Position) :
    ∀ (n : Nat) (s : SnakeLogic), s.headInGrid →
      ∃ s2, gameLoop n s target = some s2 ∧ s2.headInGrid := by
  intro n
  induction n with
  | zero => intro s hs; exact ⟨s, rfl, hs⟩
  | succ n ih =>
    intro s hs
    obtain ⟨s1, hstep, hnext⟩ := gameLoopStep_headInGrid s target hs
    obtain ⟨s2, hs2, hhead⟩ := ih s1 hnext
    refine ⟨s2, ?_, hhead⟩
    show (gameLoopStep s target).bind (fun next => gameLoop n next target) = some s2
    rw [hstep]
    exact hs2

theorem init_headInGrid {start : Position} (hin : SnakeLogic.isInsideGrid start = true) :
    (SnakeLogic.init start).headInGrid := by
  unfold SnakeLogic.init
  split_ifs
  · exact ⟨start, [⟨sub32 start.x 1, start.y⟩], rfl, hin⟩
  · exact ⟨start, [], rfl, hin⟩

/-- A write at a cell of the grid into a 20x20 buffer succeeds and keeps the buffer 20x20. -/
theorem setCell_in_bounds (grid : List (List Char)) (x y : Int) (c : Char)
    (hlen : grid.length = 20) (hrow : ∀ row ∈ grid, row.length = 20)
    (hx : 0 ≤ x ∧ x < 20) (hy : 0 ≤ y ∧ y < 20) :
    ∃ g, setCell grid x y c = some g ∧ g.length = 20 ∧ ∀ row ∈ g, row.length = 20 := by
  have hy2 : 0 ≤ y ∧ y < (grid.length : Int) := by rw [hlen]; omega
  have hlt : y.toNat < grid.length := by omega
  have hget : grid.get? y.toNat = some (grid.get ⟨y.toNat, hlt⟩) := List.get?_eq_get hlt
  have hmem : grid.get ⟨y.toNat, hlt⟩ ∈ grid := List.get_mem grid y.toNat hlt
  have hx2 : 0 ≤ x ∧ x < ((grid.get ⟨y.toNat, hlt⟩).length : Int) := by
    rw [hrow _ hmem]; omega
  unfold setCell
  rw [if_pos hy2, hget]
  simp only
  rw [if_pos hx2]
  refine ⟨_, rfl, by rw [List.length_set, hlen], ?_⟩
  intro row hrowmem
  rcases List.mem_or_eq_of_mem_set hrowmem with h | h
  · exact hrow row h
  · rw [h, List.length_set]
    exact hrow _ hmem

/-- With the head inside the grid, every write of `drawGame` is in bounds. -/
theorem drawGame_in_bounds (s : SnakeLogic) (hs : s.headInGrid) : ∃ g, drawGame s = some g := by
  obtain ⟨h, rest, hb, hin⟩ := hs
  rw [isInsideGrid_iff] at hin
  have hhead : s.getHead = some h := by simp [SnakeLogic.getHead, hb]
  obtain ⟨g1, hg1, hlen1, hrow1⟩ := setCell_in_bounds
    (List.replicate HEIGHT.toNat (List.replicate WIDTH.toNat ' ')) h.x h.y 'o'
    (by simp [HEIGHT])
    (by intro row hrow; rw [List.eq_of_mem_replicate hrow]; simp [WIDTH])
    ⟨hin.1, hin.2.1⟩ ⟨hin.2.2.1, hin.2.2.2⟩
  obtain ⟨g2, hg2, _, _⟩ := setCell_in_bounds g1 h.x h.y 'O' hlen1 hrow1
    ⟨hin.1, hin.2.1⟩ ⟨hin.2.2.1, hin.2.2.2⟩
  refine ⟨g2, ?_⟩
  unfold drawGame
  rw [hhead]
  simp only [drawSegments, hg1, Option.some_bind, Option.bind_eq_bind]
  exact hg2

/-- C14: the snake never stalls in a reachable state.  For every start cell inside the
grid, every target inside the grid and every `n`, the loop returns a state after `n` ticks
from the constructed actor, and in it `chooseMove` returns a cell different from the
current head; the state has no duplicate leading cell. -/
theorem chooseMove_never_stalls (start target : Position) (n : Nat)
    (hstart : SnakeLogic.isInsideGrid start = true)
    (htarget : SnakeLogic.isInsideGrid target = true) :
    ∃ s h m, gameLoop n (SnakeLogic.init start) target = some s ∧
      s.getHead = some h ∧ s.chooseMove target = some m ∧ m ≠ h ∧
      ∀ rest, s.mySnake.body ≠ h :: h :: rest := by
  obtain ⟨s, hs, hchain⟩ :=
    gameLoop_shortChain target htarget n (SnakeLogic.init start) (init_shortChain hstart)
  obtain ⟨h, m, hhead, hm, hmh, _, _⟩ := gameLoopStep_shortChain s target hchain htarget
  refine ⟨s, h, m, hs, hhead, hm, hmh, ?_⟩
  intro rest hdup
  obtain ⟨h2, _, hbody⟩ := hchain
  rcases hbody with hb | ⟨b, hb, hd⟩
  · rw [hb] at hdup
    simp at hdup
  · rw [hb] at hdup
    simp only [List.cons.injEq] at hdup
    obtain ⟨h2h, bh, _⟩ := hdup
    rw [h2h, bh] at hd
    exact manhattan_one_ne hd rfl

theorem chooseMove_never_stalls_witness :
    ∃ s h m, gameLoop 7 (SnakeLogic.init ⟨10, 10⟩) ⟨5, 5⟩ = some s ∧
      s.getHead = some h ∧ s.chooseMove ⟨5, 5⟩ = some m ∧ m ≠ h ∧
      ∀ rest, s.mySnake.body ≠ h :: h :: rest :=
  chooseMove_never_stalls ⟨10, 10⟩ ⟨5, 5⟩ 7 (by decide) (by decide)

/-- C15: the head stays on the grid.  For every start cell inside the grid, every target
cell (inside the grid or not) and every `n`, the loop returns a state after `n` ticks whose
head is inside the grid, and all writes of `drawGame` on that state are in bounds. -/
theorem head_stays_in_grid (start target : Position) (n : Nat)
    (hstart : SnakeLogic.isInsideGrid start = true) :
    ∃ s h, gameLoop n (SnakeLogic.init start) target = some s ∧ s.getHead = some h ∧
      SnakeLogic.isInsideGrid h = true ∧ ∃ g, drawGame s = some g := by
  obtain ⟨s, hs, hhead⟩ :=
    gameLoop_headInGrid target n (SnakeLogic.init start) (init_headInGrid hstart)
  obtain ⟨g, hg⟩ := drawGame_in_bounds s hhead
  obtain ⟨h, rest, hb, hin⟩ := hhead
  exact ⟨s, h, hs, by simp [SnakeLogic.getHead, hb], hin, g, hg⟩

theorem head_stays_in_grid_witness :
    ∃ s h, gameLoop 5 (SnakeLogic.init ⟨0, 0⟩) ⟨-2147483646, 0⟩ = some s ∧
      s.getHead = some h ∧ SnakeLogic.isInsideGrid h = true ∧ ∃ g, drawGame s = some g :=
  head_stays_in_grid ⟨0, 0⟩ ⟨-2147483646, 0⟩ 5 (by decide)

/-- C16: the body stays a contiguous, self-avoiding chain.  For every start cell inside
the grid, every target inside the grid and every `n`, the loop returns a state after `n`
ticks in whose body all segments are pairwise distinct and every two consecutive segments
are at Manhattan distance exactly 1. -/
theorem body_stays_chain (start target : Position) (n : Nat)
    (hstart : SnakeLogic.isInsideGrid start = true)
    (htarget : SnakeLogic.isInsideGrid target = true) :
    ∃ s, gameLoop n (SnakeLogic.init start) target = some s ∧
      s.mySnake.body.Pairwise (fun a b => a ≠ b) ∧
      s.mySnake.body.Chain' (fun a b => manhattan a b = 1) := by
  obtain ⟨s, hs, hchain⟩ :=
    gameLoop_shortChain target htarget n (SnakeLogic.init start) (init_shortChain hstart)
  refine ⟨s, hs, ?_⟩
  obtain ⟨h, _, hbody⟩ := hchain
  rcases hbody with hb | ⟨b, hb, hd⟩
  · rw [hb]
    simp
  · rw [hb]
    refine ⟨?_, ?_⟩
    · simp only [List.pairwise_cons, List.mem_singleton, forall_eq, List.not_mem_nil,
        false_implies, implies_true, List.Pairwise.nil, and_true]
      exact manhattan_one_ne hd
    · simp only [List.chain'_cons, List.chain'_singleton, and_true]
      exact hd

theorem body_stays_chain_witness :
    ∃ s, gameLoop 7 (SnakeLogic.init ⟨10, 10⟩) ⟨5, 5⟩ = some s ∧
      s.mySnake.body.Pairwise (fun a b => a ≠ b) ∧
      s.mySnake.body.Chain' (fun a b => manhattan a b = 1) :=
  body_stays_chain ⟨10, 10⟩ ⟨5, 5⟩ 7 (by decide) (by decide)
